import Mathlib

/-!
Verification development for the `pkg/remote` package of helmfile
(`src/pkg/remote/remote.go`): source-reference parsing, cache-key
derivation, cache-hit/miss fetch orchestration and the `Locate` entry
point.

The Go code is shallowly embedded.  Pure Go/stdlib string and path
helpers (`strings.Split`, `strings.NewReplacer`, `path/filepath`'s
`Dir`/`Base`/`Join`/`Clean`, `net/url`'s `Parse`, `ParseQuery`,
`Values.Encode` and the query (un)escaping) are modelled as executable
Lean functions over `List Char`.  The models are byte-faithful for
ASCII input; Unicode-specific byte-level details of Go strings
(multi-byte UTF-8 in percent-encoding) are out of scope, as are IPv6
bracket hosts.  Stateful parts (the filesystem-existence collaborator,
the three retrieval strategies, `os.RemoveAll`) are modelled by an
explicit filesystem state and strategy oracles; `Fetch`/`Locate`
additionally return the trace of strategy invocations and removals so
that "no retrieval happens" claims are statable.
-/

namespace HelmfileRemote

/-! ## Character classes (ASCII) -/

def isAlphaChar (c : Char) : Bool :=
  ('a' ≤ c && c ≤ 'z') || ('A' ≤ c && c ≤ 'Z')

def isDigitChar (c : Char) : Bool :=
  '0' ≤ c && c ≤ '9'

/-- Characters Go's `url.QueryEscape` leaves unescaped (`shouldEscape`
returns false): ASCII alphanumerics and `-`, `_`, `.`, `~`. -/
def isUnreservedChar (c : Char) : Bool :=
  isAlphaChar c || isDigitChar c || c == '-' || c == '_' || c == '.' || c == '~'

/-- ASCII lower-casing, as `strings.ToLower` acts on ASCII letters. -/
def lowerChar (c : Char) : Char :=
  if 'A' ≤ c && c ≤ 'Z' then Char.ofNat (c.toNat + 32) else c

def toLowerStr (s : String) : String :=
  String.mk (s.data.map lowerChar)

/-! ## Go `strings` helpers on `List Char` -/

/-- Split on a single-character separator; model of `strings.Split`
with a one-character separator (always returns a non-empty list). -/
def splitOnChar (sep : Char) : List Char → List (List Char)
  | [] => [[]]
  | c :: cs =>
    if c = sep then [] :: splitOnChar sep cs
    else
      match splitOnChar sep cs with
      | [] => [[c]]
      | p :: ps => (c :: p) :: ps

/-- Model of `strings.Cut` at the first occurrence of a character:
returns (before, after, found). -/
def cutChar (sep : Char) : List Char → List Char × List Char × Bool
  | [] => ([], [], false)
  | c :: cs =>
    if c = sep then ([], cs, true)
    else
      let r := cutChar sep cs
      (c :: r.1, r.2.1, r.2.2)

/-- Fueled worker for `strings.Split` with a multi-character separator.
Each step consumes at least one character, so `length + 1` fuel always
suffices; the fuel-exhausted branch is unreachable on such calls. -/
def listSplitOnFuel (sep : List Char) : Nat → List Char → List Char → List (List Char)
  | 0, rest, acc => [acc ++ rest]
  | _ + 1, [], acc => [acc]
  | fuel + 1, c :: cs, acc =>
    if sep.isPrefixOf (c :: cs) then
      acc :: listSplitOnFuel sep fuel ((c :: cs).drop sep.length) []
    else
      listSplitOnFuel sep fuel cs (acc ++ [c])

/-- Model of Go `strings.Split` (non-overlapping, left to right). -/
def listSplitOn (s sep : List Char) : List (List Char) :=
  if sep.isEmpty then s.map (fun c => [c])
  else listSplitOnFuel sep (s.length + 1) s []

def goSplitOn (s sep : String) : List String :=
  (listSplitOn s.data sep.data).map String.mk

/-- Model of `strings.ReplaceAll s "&" "_"`. -/
def replaceAmpUnderscore (s : List Char) : List Char :=
  s.map (fun c => if c = '&' then '_' else c)

/-- Model of `strings.NewReplacer(":", "", "//", "_", "/", "_", ".", "_").Replace`:
at each position the patterns are tried in argument order and the
leftmost-first match is replaced, without overlap. -/
def goReplace : List Char → List Char
  | [] => []
  | ':' :: rest => goReplace rest
  | '/' :: '/' :: rest => '_' :: goReplace rest
  | '/' :: rest => '_' :: goReplace rest
  | '.' :: rest => '_' :: goReplace rest
  | c :: rest => c :: goReplace rest

def strIntercalateL (sep : List Char) : List (List Char) → List Char
  | [] => []
  | [x] => x
  | x :: xs => x ++ sep ++ strIntercalateL sep xs

/-! ## Go `path/filepath` (unix) -/

/-- One step of `path.Clean`'s element processing: drop empty and `.`
elements, let `..` cancel a preceding non-`..` element, keep `..` at
the front of a relative path, drop `..` at the root. -/
def cleanStep (rooted : Bool) (acc : List (List Char)) (comp : List Char) : List (List Char) :=
  if comp = [] ∨ comp = ['.'] then acc
  else if comp = ['.', '.'] then
    match acc with
    | [] => if rooted then [] else [['.', '.']]
    | a :: rest => if a = ['.', '.'] then comp :: acc else rest
  else comp :: acc

/-- Model of Go `path.Clean` (equivalently `filepath.Clean` on unix). -/
def pathCleanL (p : List Char) : List Char :=
  if p = [] then ['.']
  else
    let rooted := p.head? = some '/'
    let comps := ((splitOnChar '/' p).foldl (cleanStep rooted) []).reverse
    let out := strIntercalateL ['/'] comps
    if rooted then '/' :: out
    else if out = [] then ['.'] else out

def pathClean (p : String) : String :=
  String.mk (pathCleanL p.data)

def dropTrailing (c : Char) (l : List Char) : List Char :=
  (l.reverse.dropWhile (· == c)).reverse

def afterLast (c : Char) (l : List Char) : List Char :=
  (l.reverse.takeWhile (· ≠ c)).reverse

def upToLastIncl (c : Char) (l : List Char) : List Char :=
  (l.reverse.dropWhile (· ≠ c)).reverse

/-- Model of Go `filepath.Base` (unix). -/
def filepathBase (p : String) : String :=
  if p.data = [] then "."
  else
    let q := dropTrailing '/' p.data
    if q = [] then "/"
    else String.mk (afterLast '/' q)

/-- Model of Go `filepath.Dir` (unix): everything up to and including
the final separator, cleaned. -/
def filepathDir (p : String) : String :=
  pathClean (String.mk (upToLastIncl '/' p.data))

/-- Model of Go `filepath.Join(a, b)` (unix): empty elements are
skipped before joining with `/` and cleaning; all-empty input gives
the empty string. -/
def filepathJoin2 (a b : String) : String :=
  if a = "" ∧ b = "" then ""
  else if a = "" then pathClean b
  else pathClean (a ++ "/" ++ b)

/-! ## Go `net/url` query handling -/

/-- Go `net/url`'s `unhex`: the value of one hex digit (nothing for a
non-digit), written over code points 48-57 (`0-9`), 97-102 (`a-f`) and
65-70 (`A-F`). -/
def unhexDigit (c : Char) : Option Nat :=
  let n := c.toNat
  if 48 ≤ n && n ≤ 57 then some (n - 48)
  else if 97 ≤ n && n ≤ 102 then some (n - 87)
  else if 65 ≤ n && n ≤ 70 then some (n - 55)
  else none

def hexDigitU (n : Nat) : Char :=
  if n < 10 then Char.ofNat ('0'.toNat + n) else Char.ofNat ('A'.toNat + n - 10)

/-- Model of `url.QueryUnescape`: `+` becomes a space, `%XX` is
decoded, a malformed escape is an error (`none`). -/
def queryUnescapeL : List Char → Option (List Char)
  | [] => some []
  | c :: cs =>
    if c = '%' then
      match cs with
      | a :: b :: rest =>
        match unhexDigit a, unhexDigit b with
        | some x, some y => (queryUnescapeL rest).map (Char.ofNat (16 * x + y) :: ·)
        | _, _ => none
      | _ => none
    else if c = '+' then (queryUnescapeL cs).map (' ' :: ·)
    else (queryUnescapeL cs).map (c :: ·)

/-- Model of `url.QueryEscape` (ASCII): unreserved characters are kept,
space becomes `+`, everything else becomes `%XX` with uppercase hex. -/
def queryEscapeL : List Char → List Char
  | [] => []
  | c :: cs =>
    (if isUnreservedChar c then [c]
     else if c = ' ' then ['+']
     else ['%', hexDigitU (c.toNat / 16), hexDigitU (c.toNat % 16)]) ++ queryEscapeL cs

def queryEscape (s : String) : String :=
  String.mk (queryEscapeL s.data)

/-- `url.Values`: ordered association list with unique keys, each key
holding its values in order of appearance (Go's `map[string][]string`;
`Encode` sorts the keys, so only per-key value order is observable). -/
abbrev Values := List (String × List String)

/-- `v.Add`-style insertion used by `ParseQuery`
(`m[key] = append(m[key], value)`). -/
def valuesAdd (m : Values) (k v : String) : Values :=
  match m with
  | [] => [(k, [v])]
  | (k', vs) :: rest =>
    if k' = k then (k', vs ++ [v]) :: rest else (k', vs) :: valuesAdd rest k v

/-- `Values.Has`. -/
def valuesHas (m : Values) (k : String) : Bool :=
  match m with
  | [] => false
  | (k', _) :: rest => k' == k || valuesHas rest k

/-- `Values.Set`: replace the key's values with the single given value. -/
def valuesSet (m : Values) (k v : String) : Values :=
  match m with
  | [] => [(k, [v])]
  | (k', vs) :: rest =>
    if k' = k then (k, [v]) :: rest else (k', vs) :: valuesSet rest k v

/-- One iteration of `url.ParseQuery`'s loop body on an `&`-piece:
pieces containing `;` are rejected, empty pieces skipped, the piece is
cut at the first `=` and both sides query-unescaped; an unescape error
drops the pair (the partially filled map is kept, and `Remote.Fetch`
discards the returned error). -/
def parsePieceKV (m : Values) (ok ov : Option (List Char)) : Values :=
  match ok, ov with
  | some k, some v => valuesAdd m (String.mk k) (String.mk v)
  | _, _ => m

def parsePiece (m : Values) (piece : List Char) : Values :=
  if piece.contains ';' then m
  else if piece = [] then m
  else parsePieceKV m (queryUnescapeL (cutChar '=' piece).1)
    (queryUnescapeL (cutChar '=' piece).2.1)

/-- Model of `url.ParseQuery`, with the error discarded as at the call
site (`q, _ := neturl.ParseQuery(query)`). -/
def parseQueryGo (q : String) : Values :=
  (splitOnChar '&' q.data).foldl parsePiece []

def strLeL : List Char → List Char → Bool
  | [], _ => true
  | _ :: _, [] => false
  | a :: as, b :: bs =>
    if a.toNat < b.toNat then true
    else if b.toNat < a.toNat then false
    else strLeL as bs

def insertSorted (x : String) : List String → List String
  | [] => [x]
  | y :: ys => if strLeL x.data y.data then x :: y :: ys else y :: insertSorted x ys

/-- `sort.Strings` (byte-lexicographic; keys are unique here). -/
def sortStrings (l : List String) : List String :=
  l.foldr insertSorted []

def valuesGet (m : Values) (k : String) : List String :=
  match m with
  | [] => []
  | (k', vs) :: rest => if k' = k then vs else valuesGet rest k

/-- Model of `url.Values.Encode`: keys sorted, each value escaped as
`key=value`, joined with `&`. -/
def valuesEncode (m : Values) : String :=
  let keys := sortStrings (m.map Prod.fst)
  String.mk (strIntercalateL ['&']
    ((keys.map (fun k =>
      (valuesGet m k).map (fun v => (queryEscape k ++ "=" ++ queryEscape v).data))).flatten))

/-! ## Go `net/url` URL parsing (as used via go-getter `helper/url`,
which on unix is exactly `net/url.Parse`) -/

structure GoURL where
  Scheme : String
  /-- `u.User.String()`: empty when no userinfo was present; the
  userinfo text is kept verbatim (ASCII scope, no re-escaping). -/
  User : String
  Host : String
  Path : String
  RawQuery : String
deriving DecidableEq

/-- `getScheme`: letters continue a scheme; a digit, `+`, `-` or `.`
in first position means no scheme; `:` in first position is an error;
`:` after a valid run ends the scheme; any other character means the
whole string has no scheme. -/
def getSchemeAux (raw : List Char) : List Char → Nat → Except String (String × List Char)
  | [], _ => .ok ("", raw)
  | c :: cs, i =>
    if isAlphaChar c then getSchemeAux raw cs (i + 1)
    else if isDigitChar c || c == '+' || c == '-' || c == '.' then
      if i == 0 then .ok ("", raw) else getSchemeAux raw cs (i + 1)
    else if c = ':' then
      if i == 0 then .error "missing protocol scheme"
      else .ok (String.mk (raw.take i), raw.drop (i + 1))
    else .ok ("", raw)

def validOptionalPortL (colonPort : List Char) : Bool :=
  match colonPort with
  | [] => true
  | ':' :: digits => digits.all isDigitChar
  | _ => false

def lastIndexOf (c : Char) (l : List Char) : Option Nat :=
  (l.reverse.findIdx? (· == c)).map (fun j => l.length - 1 - j)

/-- `parseHost`, without IPv6 bracket hosts and percent-escapes
(out of the modelled ASCII hostname scope): validates the optional
`:port` suffix. -/
def parseHostL (host : List Char) : Except String String :=
  match lastIndexOf ':' host with
  | some idx =>
    if validOptionalPortL (host.drop idx) then .ok (String.mk host)
    else .error ("invalid port " ++ String.mk (host.drop idx) ++ " after host")
  | none => .ok (String.mk host)

/-- `parseAuthority`: userinfo before the last `@`, host after. -/
def parseAuthorityL (authority : List Char) : Except String (String × String) :=
  match lastIndexOf '@' authority with
  | none => do
    let h ← parseHostL authority
    pure ("", h)
  | some i => do
    let h ← parseHostL (authority.drop (i + 1))
    pure (String.mk (authority.take i), h)

/-- Model of `net/url.Parse` (non-request form, `viaRequest = false`);
the fragment is cut off at the first `#` and discarded, percent
escapes in path/userinfo are kept verbatim (ASCII scope).  In the
opaque case (`scheme:` followed by a rootless remainder) `Path` is
empty, as the Go `URL.Path` is. -/
def urlParseL (rawURL : List Char) : Except String GoURL :=
  if rawURL.any (fun c => c.toNat < 0x20 || c.toNat == 0x7f) then
    .error "net/url: invalid control character in URL"
  else
    let u := (cutChar '#' rawURL).1
    match getSchemeAux u u 0 with
    | .error e => .error e
    | .ok (scheme0, rest0) =>
      let scheme := toLowerStr scheme0
      let rq :=
        if rest0.getLast? = some '?' ∧ ¬ rest0.dropLast.contains '?' then
          (rest0.dropLast, ([] : List Char))
        else
          let c := cutChar '?' rest0
          (c.1, c.2.1)
      let rest := rq.1
      let rawQuery := String.mk rq.2
      if ¬ ['/'].isPrefixOf rest then
        if scheme ≠ "" then
          .ok { Scheme := scheme, User := "", Host := "", Path := "", RawQuery := rawQuery }
        else if (cutChar '/' rest).1.contains ':' then
          .error "first path segment in URL cannot contain colon"
        else
          .ok { Scheme := scheme, User := "", Host := "", Path := String.mk rest,
                RawQuery := rawQuery }
      else if ['/', '/'].isPrefixOf rest ∧
              (scheme ≠ "" ∨ ¬ ['/', '/', '/'].isPrefixOf rest) then
        let auth0 := rest.drop 2
        let split :=
          match auth0.findIdx? (· == '/') with
          | none => (auth0, ([] : List Char))
          | some i => (auth0.take i, auth0.drop i)
        match parseAuthorityL split.1 with
        | .error e => .error e
        | .ok (user, host) =>
          .ok { Scheme := scheme, User := user, Host := host, Path := String.mk split.2,
                RawQuery := rawQuery }
      else
        .ok { Scheme := scheme, User := "", Host := "", Path := String.mk rest,
              RawQuery := rawQuery }

/-! ## `pkg/remote` error values

The Go code distinguishes errors by dynamic type (`InvalidURLError`,
asserted on in `Locate`) or, for the plain `fmt.Errorf` values, by
their distinct production sites and messages.  Each production site
gets one constructor; `Err.message` renders the Go error message (for
`multi`, `go.uber.org/multierr` joins the messages with `"; "`). -/

inductive Err where
  /-- `InvalidURLError` (the only type `Locate` intercepts). -/
  | invalidURL (msg : String)
  /-- `ParseNormalProtocol`'s `fmt.Errorf("failed to parse URL %s", path)`
  — the spec's `UnsupportedSchemeError`. -/
  | unsupportedScheme (path : String)
  /-- `fmt.Errorf("[bug] cacheDirOpt's length: want 0 or 1, got %d", n)`. -/
  | cacheDirOptBug (n : Nat)
  /-- `fmt.Errorf("%s is not directory. please remove it ...", getterDst)`
  — the spec's `CachePathConflictError`. -/
  | cacheConflict (getterDst : String)
  /-- An error returned by a retrieval strategy's `Get`. -/
  | strategyFailed (msg : String)
  /-- An error returned by `os.RemoveAll`. -/
  | removeFailed (msg : String)
  /-- `multierr.Append` of two non-nil errors. -/
  | multi (l r : Err)
deriving DecidableEq

def Err.message : Err → String
  | .invalidURL m => m
  | .unsupportedScheme p => "failed to parse URL " ++ p
  | .cacheDirOptBug n => "[bug] cacheDirOpt's length: want 0 or 1, got " ++ toString n
  | .cacheConflict d => d ++ " is not directory. please remove it so that variant could use it for dependency caching"
  | .strategyFailed m => m
  | .removeFailed m => m
  | .multi l r => l.message ++ "; " ++ r.message

/-! ## `Source` and `Parse` -/

structure Source where
  Getter : String
  Scheme : String
  User : String
  Host : String
  Dir : String
  File : String
  RawQuery : String
deriving DecidableEq

def quoteGo (s : String) : String := "\x22" ++ s ++ "\x22"

/-- The common tail of `Parse` after the forced-getter split: parse
with the permissive URL parser (lines 116-142 of `remote.go`),
requiring a scheme, then split the path on `@` into exactly two
components or fall back to `Dir`/`Base` with a root `Dir` normalized
to the empty string. -/
def parseAfterGetter (getter : String) (src : String) : Except Err Source :=
  match urlParseL src.data with
  | .error e => .error (.invalidURL ("parse url: parse " ++ quoteGo src ++ ": " ++ e))
  | .ok u =>
    if u.Scheme = "" then
      .error (.invalidURL ("parse url: missing scheme - probably this is a local file path? " ++ src))
    else
      match (splitOnChar '@' u.Path.data).map String.mk with
      | [d, f] =>
        .ok { Getter := getter, User := u.User, Scheme := u.Scheme, Host := u.Host,
              Dir := d, File := f, RawQuery := u.RawQuery }
      | _ =>
        let dir := filepathDir u.Path
        let dir := if dir = "/" then "" else dir
        .ok { Getter := getter, User := u.User, Scheme := u.Scheme, Host := u.Host,
              Dir := dir, File := filepathBase u.Path, RawQuery := u.RawQuery }

/-- `ParseNormalProtocol` (lines 168-183): the part before the first
`://`, lower-cased, must be one of `s3`, `http`, `https`. -/
def ParseNormalProtocol (path : String) : Except Err String :=
  match goSplitOn path "://" with
  | [] => .error (.unsupportedScheme path)
  | p0 :: _ =>
    let protocol := toLowerStr p0
    if ["s3", "http", "https"].contains protocol then .ok protocol
    else .error (.unsupportedScheme path)

/-- `ParseNormal` (lines 145-166).  (In Go a URL-parse failure here
would dereference a nil `*url.URL` before the error is returned; the
model propagates the error that Go's final `return ..., err` names.) -/
def ParseNormal (path : String) : Except Err Source :=
  match ParseNormalProtocol path with
  | .error e => .error e
  | .ok _ =>
    match urlParseL path.data with
    | .error e => .error (.invalidURL ("parse url: parse " ++ quoteGo path ++ ": " ++ e))
    | .ok u =>
      let dir := filepathDir u.Path
      let dir := if dir = "/" then "" else dir
      .ok { Getter := "normal", User := u.User, Scheme := u.Scheme, Host := u.Host,
            Dir := dir, File := filepathBase u.Path, RawQuery := u.RawQuery }

/-- `Parse` (lines 102-143): a two-way `::` split selects a forced
getter; otherwise a two-way `://` split routes to `ParseNormal`;
otherwise the permissive parser handles the whole string. -/
def Parse (goGetterSrc : String) : Except Err Source :=
  match goSplitOn goGetterSrc "::" with
  | [g, rest] => parseAfterGetter g rest
  | _ =>
    if (goSplitOn goGetterSrc "://").length == 2 then ParseNormal goGetterSrc
    else parseAfterGetter "" goGetterSrc

/-- `IsRemote` (lines 95-100). -/
def IsRemote (goGetterSrc : String) : Bool :=
  match Parse goGetterSrc with
  | .error _ => false
  | .ok _ => true

/-! ## Cache-key derivation (`Remote.Fetch`, lines 191 and 209-223) -/

/-- `srcDir := fmt.Sprintf("%s://%s%s", u.Scheme, u.Host, u.Dir)`. -/
def srcDirOf (u : Source) : String :=
  u.Scheme ++ "://" ++ u.Host ++ u.Dir

/-- The `if q.Has("sshkey") { q.Set("sshkey", "redacted") }` step. -/
def redact (q : Values) : Values :=
  if valuesHas q "sshkey" then valuesSet q "sshkey" "redacted" else q

/-- Lines 211-223 of `Remote.Fetch`: sanitize the reconstructed source
directory with the replacer; when a query is present, parse it, redact
`sshkey`, re-encode with `&` replaced by `_`, and append it after a
`.` separator. -/
def deriveCacheKey (u : Source) : String :=
  let dirKey := String.mk (goReplace (srcDirOf u).data)
  if u.RawQuery.data.length > 0 then
    let q := redact (parseQueryGo u.RawQuery)
    let paramsKey := String.mk (replaceAmpUnderscore (valuesEncode q).data)
    dirKey ++ "." ++ paramsKey
  else dirKey

/-- Lines 251-260: the retrieval source string, re-embedding the
userinfo when present and re-appending the original (non-redacted)
query. -/
def getterSrcOf (u : Source) : String :=
  let base :=
    if u.User ≠ "" then u.Scheme ++ "://" ++ u.User ++ "@" ++ u.Host ++ u.Dir
    else u.Scheme ++ "://" ++ u.Host ++ u.Dir
  if u.RawQuery.data.length > 0 then base ++ "?" ++ u.RawQuery else base

/-- Line 278: the generic strategy re-prefixes a non-empty forced
getter with `::`. -/
def genericGetterSrc (u : Source) : String :=
  if u.Getter ≠ "" then u.Getter ++ "::" ++ getterSrcOf u else getterSrcOf u

/-- Line 228: `getterDst := filepath.Join(cacheBaseDir, cacheKey)`. -/
def getterDstOf (cacheBaseDir : String) (u : Source) : String :=
  filepathJoin2 cacheBaseDir (deriveCacheKey u)

/-! ## The stateful `Remote` model -/

/-- The filesystem-existence collaborator (`r.fs.FileExistsAt`,
`r.fs.DirectoryExistsAt`). -/
structure FS where
  fileAt : String → Bool
  dirAt : String → Bool

inductive StratKind where
  | generic
  | s3
  | http
deriving DecidableEq

/-- One retrieval-strategy invocation `Get(wd, src, dst)`. -/
structure Call where
  strat : StratKind
  wd : String
  src : String
  dst : String
deriving DecidableEq

/-- The orchestrator.  Each strategy's `Get` and `os.RemoveAll` are
oracles: given the filesystem they either fail with an error message
or succeed, in both cases producing the next filesystem state. -/
structure Remote where
  Home : String
  Getter : FS → String → String → String → Option String × FS
  S3Getter : FS → String → String → String → Option String × FS
  HttpGetter : FS → String → String → String → Option String × FS
  removeAll : FS → String → Option String × FS

/-- Line 231: `cacheDirPath := filepath.Join(r.Home, getterDst)`. -/
def cacheDirPathOf (r : Remote) (cacheBaseDir : String) (u : Source) : String :=
  filepathJoin2 r.Home (getterDstOf cacheBaseDir u)

/-- Result of `Fetch`/`Locate`: the Go `(string, error)` pair, the
filesystem afterwards, and the trace of strategy invocations and
`os.RemoveAll` calls. -/
structure FetchOut where
  ret : String × Option Err
  fs : FS
  calls : List Call
  removes : List String

/-- Lines 242-247: cached iff the forced getter is `"normal"` and the
file exists directly under the cache dir, or a directory exists at the
cache dir. -/
def cacheHit (fs : FS) (u : Source) (cacheDirPath : String) : Bool :=
  (u.Getter == "normal" && fs.fileAt (filepathJoin2 cacheDirPath u.File)) ||
    fs.dirAt cacheDirPath

/-- The generic strategy's failure path (lines 281-287): remove the
cache path recursively; a failing removal's error is appended to the
retrieval error, otherwise the retrieval error alone is returned. -/
def Remote.fetchMissGenericFail (r : Remote) (u : Source) (cacheDirPath : String)
    (e : String) (fs' : FS) : FetchOut :=
  match r.removeAll fs' cacheDirPath with
  | (none, fs2) =>
    { ret := ("", some (.strategyFailed e)), fs := fs2,
      calls := [⟨.generic, r.Home, genericGetterSrc u, cacheDirPath⟩],
      removes := [cacheDirPath] }
  | (some rm, fs2) =>
    { ret := ("", some (.multi (.strategyFailed e) (.removeFailed rm))), fs := fs2,
      calls := [⟨.generic, r.Home, genericGetterSrc u, cacheDirPath⟩],
      removes := [cacheDirPath] }

/-- Lines 250-290, the cache-miss dispatch: `("normal", s3)` goes to
the S3 strategy and `("normal", http/https)` to the HTTP strategy,
both passing the original reference and, on failure, returning
`multierr.Append(err, err)` with no cleanup; everything else goes to
the generic strategy with the forced getter re-prefixed, and on
failure `os.RemoveAll(cacheDirPath)` runs before the error (joined
with a failing removal's error) is returned. -/
def Remote.fetchMiss (r : Remote) (fs : FS) (path : String) (u : Source)
    (cacheDirPath : String) : FetchOut :=
  if u.Getter == "normal" && u.Scheme == "s3" then
    match r.S3Getter fs r.Home path cacheDirPath with
    | (some e, fs') =>
      { ret := ("", some (.multi (.strategyFailed e) (.strategyFailed e))), fs := fs',
        calls := [⟨.s3, r.Home, path, cacheDirPath⟩], removes := [] }
    | (none, fs') =>
      { ret := (filepathJoin2 cacheDirPath u.File, none), fs := fs',
        calls := [⟨.s3, r.Home, path, cacheDirPath⟩], removes := [] }
  else if u.Getter == "normal" && (u.Scheme == "https" || u.Scheme == "http") then
    match r.HttpGetter fs r.Home path cacheDirPath with
    | (some e, fs') =>
      { ret := ("", some (.multi (.strategyFailed e) (.strategyFailed e))), fs := fs',
        calls := [⟨.http, r.Home, path, cacheDirPath⟩], removes := [] }
    | (none, fs') =>
      { ret := (filepathJoin2 cacheDirPath u.File, none), fs := fs',
        calls := [⟨.http, r.Home, path, cacheDirPath⟩], removes := [] }
  else
    match r.Getter fs r.Home (genericGetterSrc u) cacheDirPath with
    | (none, fs') =>
      { ret := (filepathJoin2 cacheDirPath u.File, none), fs := fs',
        calls := [⟨.generic, r.Home, genericGetterSrc u, cacheDirPath⟩], removes := [] }
    | (some e, fs') => r.fetchMissGenericFail u cacheDirPath e fs'

/-- Lines 209-292 after the cache-dir option is resolved: compute the
cache key and paths, fail on a plain file at the cache path, return
the cached path on a hit, otherwise dispatch; hit or fresh miss both
return `filepath.Join(cacheDirPath, file)`. -/
def Remote.fetchSource (r : Remote) (fs : FS) (path : String) (u : Source)
    (cacheBaseDir : String) : FetchOut :=
  let getterDst := getterDstOf cacheBaseDir u
  let cacheDirPath := cacheDirPathOf r cacheBaseDir u
  if fs.fileAt cacheDirPath then
    { ret := ("", some (.cacheConflict getterDst)), fs := fs, calls := [], removes := [] }
  else if cacheHit fs u cacheDirPath then
    { ret := (filepathJoin2 cacheDirPath u.File, none), fs := fs, calls := [], removes := [] }
  else r.fetchMiss fs path u cacheDirPath

/-- `Remote.Fetch` (lines 185-293): parse, resolve the optional cache
base dir (zero or one values; more is a caller bug), then fetch. -/
def Remote.Fetch (r : Remote) (fs : FS) (path : String) (cacheDirOpt : List String) : FetchOut :=
  match Parse path with
  | .error e => { ret := ("", some e), fs := fs, calls := [], removes := [] }
  | .ok u =>
    match cacheDirOpt with
    | [] => r.fetchSource fs path u ""
    | [d] => r.fetchSource fs path u d
    | _ =>
      { ret := ("", some (.cacheDirOptBug cacheDirOpt.length)), fs := fs,
        calls := [], removes := [] }

/-- `Remote.Locate` (lines 69-81): an existing local file or directory
is returned unchanged; otherwise `Fetch` runs, an `InvalidURLError`
downgrades to returning the input unchanged, and any other error is
surfaced with an empty path. -/
def Remote.Locate (r : Remote) (fs : FS) (urlOrPath : String)
    (cacheDirOpt : List String) : FetchOut :=
  if fs.fileAt urlOrPath || fs.dirAt urlOrPath then
    { ret := (urlOrPath, none), fs := fs, calls := [], removes := [] }
  else
    let out := r.Fetch fs urlOrPath cacheDirOpt
    match out.ret.2 with
    | some (.invalidURL _) => { out with ret := (urlOrPath, none) }
    | some e => { out with ret := ("", some e) }
    | none => out

/-! ## Concrete test fixtures (used by witnesses and counterexamples) -/

def emptyFS : FS := ⟨fun _ => false, fun _ => false⟩

/-- A strategy oracle that succeeds, creating the destination
directory (and clearing any plain file at the destination path), per
the strategies' contract of materializing `dst`. -/
def okGet : FS → String → String → String → Option String × FS :=
  fun fs _ _ dst =>
    (none, ⟨fun q => decide (q ≠ dst) && fs.fileAt q, fun q => q == dst || fs.dirAt q⟩)

/-- A strategy oracle that always fails with the given message,
leaving the filesystem unchanged. -/
def failGet (msg : String) : FS → String → String → String → Option String × FS :=
  fun fs _ _ _ => (some msg, fs)

/-- An `os.RemoveAll` oracle that succeeds, removing the path. -/
def okRemoveAll : FS → String → Option String × FS :=
  fun fs p =>
    (none, ⟨fun q => decide (q ≠ p) && fs.fileAt q, fun q => decide (q ≠ p) && fs.dirAt q⟩)

def rOK : Remote := ⟨"/h", okGet, okGet, okGet, okRemoveAll⟩

def rS3Fail : Remote := ⟨"/h", okGet, failGet "boom", okGet, okRemoveAll⟩

def rGenFail : Remote := ⟨"/h", failGet "get: boom", okGet, okGet, okRemoveAll⟩

def c3fs : FS := ⟨fun _ => false, fun q => q == "s3://bucket/obj.yaml"⟩

def c5fs : FS := ⟨fun p => p == "/h/s3_bucket", fun _ => false⟩

def c5src : Source :=
  { Getter := "normal", Scheme := "s3", User := "", Host := "bucket",
    Dir := "", File := "obj.yaml", RawQuery := "" }

def c7src : Source :=
  { Getter := "normal", Scheme := "s3", User := "", Host := "bucket",
    Dir := "/dir", File := "obj.yaml", RawQuery := "" }

def c6ref : String := "git::https://example.com/org/repo.git"

def c6src : Source :=
  { Getter := "git", Scheme := "https", User := "", Host := "example.com",
    Dir := "/org", File := "repo.git", RawQuery := "" }

def c1fs : FS := ⟨fun _ => false, fun p => p == "/h/https_example_com_org"⟩

/-- Two `Values` maps that agree everywhere except in the value list
stored at key `k` (which both contain). -/
def ValuesExceptAt (k : String) (m1 m2 : Values) : Prop :=
  ∃ (a : Values) (vs1 vs2 : List String) (b : Values),
    (∀ p ∈ a, p.1 ≠ k) ∧ m1 = a ++ (k, vs1) :: b ∧ m2 = a ++ (k, vs2) :: b

def c2refA : String := "git::ssh://git@example.com/org/repo.git?ref=v1.0&sshkey=QUJ+RE/VG=="

def c2refB : String := "git::ssh://git@example.com/org/repo.git?ref=v1.0&sshkey=WFla/Vz+X="

def c2srcA : Source :=
  { Getter := "git", Scheme := "ssh", User := "git", Host := "example.com",
    Dir := "/org", File := "repo.git", RawQuery := "ref=v1.0&sshkey=QUJ+RE/VG==" }

def c2srcB : Source :=
  { Getter := "git", Scheme := "ssh", User := "git", Host := "example.com",
    Dir := "/org", File := "repo.git", RawQuery := "ref=v1.0&sshkey=WFla/Vz+X=" }

theorem okGet_post : ∀ fs1 wd src dst res,
    okGet fs1 wd src dst = (none, res) → res.dirAt dst = true ∧ res.fileAt dst = false := by
  intro fs1 wd src dst res h
  injection h with _ h2
  subst h2
  simp [okGet]

theorem okRemoveAll_post : ∀ fs1 p fs2,
    okRemoveAll fs1 p = (none, fs2) → fs2.dirAt p = false ∧ fs2.fileAt p = false := by
  intro fs1 p fs2 h
  injection h with _ h2
  subst h2
  simp [okRemoveAll]

/-! ## Shared reduction lemmas about `Fetch` -/

/-- With a parseable reference and a well-formed cache-dir option,
`Fetch` reduces to `fetchSource`. -/
theorem fetch_eq_fetchSource (r : Remote) (fs : FS) (path : String) (opts : List String)
    (u : Source) (hp : Parse path = .ok u) (hlen : opts.length ≤ 1) :
    r.Fetch fs path opts = r.fetchSource fs path u (opts.headD "") := by
  match opts, hlen with
  | [], _ => simp [Remote.Fetch, hp]
  | [d], _ => simp [Remote.Fetch, hp]

/-- A plain file at the cache path makes `fetchSource` fail with the
conflict error, touching nothing. -/
theorem fetchSource_conflict (r : Remote) (fs : FS) (path : String) (u : Source) (cbd : String)
    (hfile : fs.fileAt (cacheDirPathOf r cbd u) = true) :
    r.fetchSource fs path u cbd =
      { ret := ("", some (.cacheConflict (getterDstOf cbd u))),
        fs := fs, calls := [], removes := [] } := by
  simp [Remote.fetchSource, hfile]

/-- On a cache hit (and no plain-file conflict), `fetchSource` returns
the joined cached file path and touches nothing. -/
theorem fetchSource_of_hit (r : Remote) (fs : FS) (path : String) (u : Source) (cbd : String)
    (hf : fs.fileAt (cacheDirPathOf r cbd u) = false)
    (hc : cacheHit fs u (cacheDirPathOf r cbd u) = true) :
    r.fetchSource fs path u cbd =
      { ret := (filepathJoin2 (cacheDirPathOf r cbd u) u.File, none),
        fs := fs, calls := [], removes := [] } := by
  simp [Remote.fetchSource, hf, hc]

/-- On a cache miss (and no conflict), `fetchSource` reduces to
`fetchMiss`. -/
theorem fetchSource_of_miss (r : Remote) (fs : FS) (path : String) (u : Source) (cbd : String)
    (hf : fs.fileAt (cacheDirPathOf r cbd u) = false)
    (hc : cacheHit fs u (cacheDirPathOf r cbd u) = false) :
    r.fetchSource fs path u cbd = r.fetchMiss fs path u (cacheDirPathOf r cbd u) := by
  simp [Remote.fetchSource, hf, hc]

/-- On a cache hit (and no plain-file conflict), `Fetch` returns the
joined cached file path and touches nothing. -/
theorem fetch_of_hit (r : Remote) (fs : FS) (path : String) (opts : List String) (u : Source)
    (hp : Parse path = .ok u) (hlen : opts.length ≤ 1)
    (hf : fs.fileAt (cacheDirPathOf r (opts.headD "") u) = false)
    (hc : cacheHit fs u (cacheDirPathOf r (opts.headD "") u) = true) :
    r.Fetch fs path opts =
      { ret := (filepathJoin2 (cacheDirPathOf r (opts.headD "") u) u.File, none),
        fs := fs, calls := [], removes := [] } := by
  rw [fetch_eq_fetchSource r fs path opts u hp hlen]
  exact fetchSource_of_hit r fs path u (opts.headD "") hf hc

/-- On a cache miss (and no conflict), `Fetch` reduces to `fetchMiss`. -/
theorem fetch_of_miss (r : Remote) (fs : FS) (path : String) (opts : List String) (u : Source)
    (hp : Parse path = .ok u) (hlen : opts.length ≤ 1)
    (hf : fs.fileAt (cacheDirPathOf r (opts.headD "") u) = false)
    (hc : cacheHit fs u (cacheDirPathOf r (opts.headD "") u) = false) :
    r.Fetch fs path opts = r.fetchMiss fs path u (cacheDirPathOf r (opts.headD "") u) := by
  rw [fetch_eq_fetchSource r fs path opts u hp hlen]
  exact fetchSource_of_miss r fs path u (opts.headD "") hf hc

/-! ## Claims -/

/-- C9: `Parse "git::https://example.com/org/repo.git//sub@file.yaml?ref=v1.0"`
succeeds with `ForcedGetter = "git"`, `Scheme = "https"`,
`Host = "example.com"`, `RawQuery = "ref=v1.0"`, and
`Dir = "/org/repo.git//sub"`, `File = "file.yaml"` from the
exactly-two-way `@`-split of the URL path. -/
theorem c9_parse_forced_getter_at_split :
    Parse "git::https://example.com/org/repo.git//sub@file.yaml?ref=v1.0" =
      .ok { Getter := "git", Scheme := "https", User := "", Host := "example.com",
            Dir := "/org/repo.git//sub", File := "file.yaml", RawQuery := "ref=v1.0" } := by
  rfl

/-- C3: a reference that exists on the local filesystem as a file or
directory is returned unchanged by `Locate`, with no error, no `Fetch`
side effects and no retrieval-strategy invocation — even if it parses
as a remote URL. -/
theorem c3_locate_local_precedence (r : Remote) (fs : FS) (p : String) (opts : List String)
    (h : (fs.fileAt p || fs.dirAt p) = true) :
    r.Locate fs p opts = { ret := (p, none), fs := fs, calls := [], removes := [] } := by
  simp [Remote.Locate, h]

theorem c3_witness :
    ((c3fs.fileAt "s3://bucket/obj.yaml" || c3fs.dirAt "s3://bucket/obj.yaml") = true ∧
      IsRemote "s3://bucket/obj.yaml" = true) ∧
    rOK.Locate c3fs "s3://bucket/obj.yaml" [] =
      { ret := ("s3://bucket/obj.yaml", none), fs := c3fs, calls := [], removes := [] } :=
  ⟨⟨by decide, by rfl⟩,
   c3_locate_local_precedence rOK c3fs "s3://bucket/obj.yaml" [] (by decide)⟩

/-- C4: for a reference that does not exist locally, `Locate` returns
the reference unchanged (no error) exactly when `Fetch` fails with
`InvalidURLError`, and surfaces any other `Fetch` error together with
an empty path. -/
theorem c4_locate_invalid_url_fallback (r : Remote) (fs : FS) (p : String) (opts : List String)
    (hnf : fs.fileAt p = false) (hnd : fs.dirAt p = false) :
    (∀ m, (r.Fetch fs p opts).ret.2 = some (.invalidURL m) →
        (r.Locate fs p opts).ret = (p, none)) ∧
    (∀ e, (r.Fetch fs p opts).ret.2 = some e → (∀ m, e ≠ .invalidURL m) →
        (r.Locate fs p opts).ret = ("", some e)) := by
  constructor
  · intro m hm
    simp [Remote.Locate, hnf, hnd, hm]
  · intro e he hne
    cases e with
    | invalidURL m => exact absurd rfl (hne m)
    | unsupportedScheme p' => simp [Remote.Locate, hnf, hnd, he]
    | cacheDirOptBug n => simp [Remote.Locate, hnf, hnd, he]
    | cacheConflict d => simp [Remote.Locate, hnf, hnd, he]
    | strategyFailed m => simp [Remote.Locate, hnf, hnd, he]
    | removeFailed m => simp [Remote.Locate, hnf, hnd, he]
    | multi a b => simp [Remote.Locate, hnf, hnd, he]

theorem c4_witness :
    (emptyFS.fileAt "./relative/not-a-url" = false ∧
      emptyFS.dirAt "./relative/not-a-url" = false ∧
      (rOK.Fetch emptyFS "./relative/not-a-url" []).ret.2 =
        some (.invalidURL
          "parse url: missing scheme - probably this is a local file path? ./relative/not-a-url")) ∧
    (rOK.Locate emptyFS "./relative/not-a-url" []).ret = ("./relative/not-a-url", none) :=
  ⟨⟨by decide, by decide, by decide⟩,
   (c4_locate_invalid_url_fallback rOK emptyFS "./relative/not-a-url" []
      (by decide) (by decide)).1
     "parse url: missing scheme - probably this is a local file path? ./relative/not-a-url"
     (by decide)⟩

/-- C5: if a plain file occupies the computed cache path, `Fetch` of a
parseable reference fails with the cache-path-conflict error, invokes
no retrieval strategy and changes nothing. -/
theorem c5_cache_path_conflict (r : Remote) (fs : FS) (path : String) (opts : List String)
    (u : Source) (hp : Parse path = .ok u) (hlen : opts.length ≤ 1)
    (hfile : fs.fileAt (cacheDirPathOf r (opts.headD "") u) = true) :
    r.Fetch fs path opts =
      { ret := ("", some (.cacheConflict (getterDstOf (opts.headD "") u))),
        fs := fs, calls := [], removes := [] } := by
  rw [fetch_eq_fetchSource r fs path opts u hp hlen]
  exact fetchSource_conflict r fs path u (opts.headD "") hfile

theorem c5_witness :
    (Parse "s3://bucket/obj.yaml" = .ok c5src ∧
      c5fs.fileAt (cacheDirPathOf rOK "" c5src) = true) ∧
    rOK.Fetch c5fs "s3://bucket/obj.yaml" [] =
      { ret := ("", some (.cacheConflict "s3_bucket")), fs := c5fs, calls := [], removes := [] } :=
  ⟨⟨by rfl, by decide⟩,
   c5_cache_path_conflict rOK c5fs "s3://bucket/obj.yaml" [] c5src
     (by rfl) (by decide) (by decide)⟩

/-- C8 holds only when the string splits on `://` into exactly two
parts: with two or more `://` occurrences the string bypasses the
"normal" branch and goes to the permissive parser, which can succeed.
`"git://example.com/x://y"` has no `::` (so no forced getter),
contains `://` occurrences, its scheme `git` is unsupported, and yet
`Parse` succeeds. -/
theorem c8_counterexample :
    (goSplitOn "git://example.com/x://y" "::").length = 1 ∧
    (goSplitOn "git://example.com/x://y" "://").length = 3 ∧
    toLowerStr ((goSplitOn "git://example.com/x://y" "://").headD "") = "git" ∧
    (["s3", "http", "https"] : List String).contains "git" = false ∧
    Parse "git://example.com/x://y" =
      .ok { Getter := "", Scheme := "git", User := "", Host := "example.com",
            Dir := "/x:", File := "y", RawQuery := "" } := by
  refine ⟨by rfl, by rfl, by rfl, by rfl, by rfl⟩

/-- C8 (amended): a reference with no two-way `::` split whose `://`
split has exactly two parts and whose lower-cased scheme part is not
`s3`/`http`/`https` makes `Parse` fail with the unsupported-scheme
error. -/
theorem c8_amended_unsupported_scheme (s : String)
    (hng : (goSplitOn s "::").length ≠ 2)
    (hone : (goSplitOn s "://").length = 2)
    (hbad : (["s3", "http", "https"] : List String).contains
        (toLowerStr ((goSplitOn s "://").headD "")) = false) :
    Parse s = .error (.unsupportedScheme s) := by
  have hpnp : ParseNormalProtocol s = .error (.unsupportedScheme s) := by
    unfold ParseNormalProtocol
    cases h3 : goSplitOn s "://" with
    | nil => rfl
    | cons p0 t =>
      rw [h3] at hbad
      simp only [List.headD] at hbad
      simp at hbad
      simp [hbad]
  have hpn : ParseNormal s = .error (.unsupportedScheme s) := by
    unfold ParseNormal
    rw [hpnp]
  unfold Parse
  cases h2 : goSplitOn s "::" with
  | nil => simp [hone, hpn]
  | cons a t =>
    cases t with
    | nil => simp [hone, hpn]
    | cons b t2 =>
      cases t2 with
      | nil => rw [h2] at hng; simp at hng
      | cons c t3 => simp [hone, hpn]

theorem c8_amended_witness :
    ((goSplitOn "git://example.com/x" "::").length ≠ 2 ∧
      (goSplitOn "git://example.com/x" "://").length = 2 ∧
      (["s3", "http", "https"] : List String).contains
        (toLowerStr ((goSplitOn "git://example.com/x" "://").headD "")) = false) ∧
    Parse "git://example.com/x" = .error (.unsupportedScheme "git://example.com/x") :=
  ⟨⟨by decide, by rfl, by rfl⟩,
   c8_amended_unsupported_scheme "git://example.com/x" (by decide) (by rfl) (by rfl)⟩

/-- C10 fails as universally quantified over references: `Fetch`
parses the reference before checking the cache-dir option count, so an
unparseable reference with two overrides returns the parse error, not
the caller-bug error. -/
theorem c10_counterexample :
    (rOK.Fetch emptyFS "./x" ["a", "b"]).ret.2 =
      some (.invalidURL "parse url: missing scheme - probably this is a local file path? ./x") ∧
    ∀ n, (rOK.Fetch emptyFS "./x" ["a", "b"]).ret.2 ≠ some (.cacheDirOptBug n) := by
  refine ⟨by rfl, ?_⟩
  intro n h
  rw [show (rOK.Fetch emptyFS "./x" ["a", "b"]).ret.2 =
      some (.invalidURL "parse url: missing scheme - probably this is a local file path? ./x")
    from rfl] at h
  exact Err.noConfusion (Option.some.inj h)

/-- C10 (amended): with two or more cache-dir overrides, `Fetch` of a
parseable reference fails with the caller-bug error, and of an
unparseable reference with the parse error; in both cases it invokes
no retrieval strategy and changes nothing. -/
theorem c10_amended_cache_dir_opt_bug (r : Remote) (fs : FS) (path : String)
    (opts : List String) (hlen : 2 ≤ opts.length) :
    (∀ u, Parse path = .ok u →
      r.Fetch fs path opts =
        { ret := ("", some (.cacheDirOptBug opts.length)), fs := fs,
          calls := [], removes := [] }) ∧
    (∀ e, Parse path = .error e →
      r.Fetch fs path opts =
        { ret := ("", some e), fs := fs, calls := [], removes := [] }) := by
  constructor
  · intro u hu
    unfold Remote.Fetch
    rw [hu]
    match opts, hlen with
    | a :: b :: t, _ => rfl
  · intro e he
    unfold Remote.Fetch
    rw [he]

theorem c10_amended_witness :
    (2 ≤ (["a", "b"] : List String).length ∧ Parse "s3://bucket/obj.yaml" = .ok c5src) ∧
    rOK.Fetch emptyFS "s3://bucket/obj.yaml" ["a", "b"] =
      { ret := ("", some (.cacheDirOptBug 2)), fs := emptyFS, calls := [], removes := [] } :=
  ⟨⟨by decide, by rfl⟩,
   (c10_amended_cache_dir_opt_bug rOK emptyFS "s3://bucket/obj.yaml" ["a", "b"]
      (by decide)).1 c5src (by rfl)⟩

/-- C7's "the returned error is that retrieval error" fails: on an S3
strategy failure the code returns `multierr.Append(err, err)`, a
multi-error containing the retrieval error twice (its message is the
retrieval error's message repeated, `"boom; boom"`), not the retrieval
error itself.  The trace shows the single S3 `Get` call that failed
with `"boom"`, and that no removal was performed. -/
theorem c7_counterexample :
    (rS3Fail.Fetch emptyFS "s3://bucket/dir/obj.yaml" []).calls =
      [⟨.s3, "/h", "s3://bucket/dir/obj.yaml", "/h/s3_bucket_dir"⟩] ∧
    (rS3Fail.Fetch emptyFS "s3://bucket/dir/obj.yaml" []).removes = [] ∧
    (rS3Fail.Fetch emptyFS "s3://bucket/dir/obj.yaml" []).ret.2 =
      some (.multi (.strategyFailed "boom") (.strategyFailed "boom")) ∧
    (rS3Fail.Fetch emptyFS "s3://bucket/dir/obj.yaml" []).ret.2 ≠
      some (.strategyFailed "boom") ∧
    (Err.multi (.strategyFailed "boom") (.strategyFailed "boom")).message = "boom; boom" ∧
    (Err.strategyFailed "boom").message = "boom" := by
  exact ⟨by rfl, by rfl, by rfl, by decide, by rfl, by rfl⟩

/-- C7 (amended): when the S3 or HTTP strategy's `Get` fails during a
cache-miss `Fetch`, no removal of the destination directory happens
and the returned error is `multierr.Append(err, err)` — the retrieval
error combined with itself — rather than the bare retrieval error. -/
theorem c7_amended_s3_http_error_no_cleanup (r : Remote) (fs : FS) (path : String)
    (opts : List String) (u : Source) (e : String) (fs' : FS)
    (hp : Parse path = .ok u) (hlen : opts.length ≤ 1)
    (hf : fs.fileAt (cacheDirPathOf r (opts.headD "") u) = false)
    (hc : cacheHit fs u (cacheDirPathOf r (opts.headD "") u) = false)
    (hcase :
      ((u.Getter == "normal" && u.Scheme == "s3") = true ∧
        r.S3Getter fs r.Home path (cacheDirPathOf r (opts.headD "") u) = (some e, fs')) ∨
      ((u.Getter == "normal" && u.Scheme == "s3") = false ∧
        (u.Getter == "normal" && (u.Scheme == "https" || u.Scheme == "http")) = true ∧
        r.HttpGetter fs r.Home path (cacheDirPathOf r (opts.headD "") u) = (some e, fs'))) :
    (r.Fetch fs path opts).ret = ("", some (.multi (.strategyFailed e) (.strategyFailed e))) ∧
    (r.Fetch fs path opts).removes = [] ∧
    (r.Fetch fs path opts).fs = fs' ∧
    (r.Fetch fs path opts).ret.2 ≠ some (.strategyFailed e) := by
  rw [fetch_of_miss r fs path opts u hp hlen hf hc]
  rcases hcase with ⟨hd, hget⟩ | ⟨hd1, hd2, hget⟩
  · unfold Remote.fetchMiss
    rw [hd, hget]
    refine ⟨rfl, rfl, rfl, ?_⟩
    intro h
    exact Err.noConfusion (Option.some.inj h)
  · unfold Remote.fetchMiss
    rw [hd1, hd2, hget]
    refine ⟨rfl, rfl, rfl, ?_⟩
    intro h
    exact Err.noConfusion (Option.some.inj h)

theorem c7_amended_witness :
    (Parse "s3://bucket/dir/obj.yaml" = .ok c7src ∧
      emptyFS.fileAt (cacheDirPathOf rS3Fail "" c7src) = false ∧
      cacheHit emptyFS c7src (cacheDirPathOf rS3Fail "" c7src) = false ∧
      rS3Fail.S3Getter emptyFS "/h" "s3://bucket/dir/obj.yaml"
          (cacheDirPathOf rS3Fail "" c7src) = (some "boom", emptyFS)) ∧
    ((rS3Fail.Fetch emptyFS "s3://bucket/dir/obj.yaml" []).ret =
        ("", some (.multi (.strategyFailed "boom") (.strategyFailed "boom"))) ∧
      (rS3Fail.Fetch emptyFS "s3://bucket/dir/obj.yaml" []).removes = []) := by
  have h := c7_amended_s3_http_error_no_cleanup rS3Fail emptyFS "s3://bucket/dir/obj.yaml"
    [] c7src "boom" emptyFS (by rfl) (by decide) (by rfl) (by rfl)
    (Or.inl ⟨by rfl, by rfl⟩)
  exact ⟨⟨by rfl, by rfl, by rfl, by rfl⟩, h.1, h.2.1⟩

/-- C6: when the generic strategy's `Get` fails during a cache-miss
`Fetch`, `os.RemoveAll` is invoked on the cache path before the error
returns; if the removal succeeds (so no directory remains at the cache
path, by `os.RemoveAll`'s contract) the retrieval error alone is
returned, and if the removal fails the returned error combines the
retrieval error with the removal error. -/
theorem c6_generic_failure_cleanup (r : Remote) (fs : FS) (path : String)
    (opts : List String) (u : Source) (e : String) (fs' : FS)
    (hp : Parse path = .ok u) (hlen : opts.length ≤ 1)
    (hrm : ∀ fs1 p fs2, r.removeAll fs1 p = (none, fs2) →
        fs2.dirAt p = false ∧ fs2.fileAt p = false)
    (hf : fs.fileAt (cacheDirPathOf r (opts.headD "") u) = false)
    (hc : cacheHit fs u (cacheDirPathOf r (opts.headD "") u) = false)
    (hd1 : (u.Getter == "normal" && u.Scheme == "s3") = false)
    (hd2 : (u.Getter == "normal" && (u.Scheme == "https" || u.Scheme == "http")) = false)
    (hget : r.Getter fs r.Home (genericGetterSrc u)
        (cacheDirPathOf r (opts.headD "") u) = (some e, fs')) :
    (r.Fetch fs path opts).removes = [cacheDirPathOf r (opts.headD "") u] ∧
    (∀ fs2, r.removeAll fs' (cacheDirPathOf r (opts.headD "") u) = (none, fs2) →
        (r.Fetch fs path opts).ret = ("", some (.strategyFailed e)) ∧
        (r.Fetch fs path opts).fs = fs2 ∧
        (r.Fetch fs path opts).fs.dirAt (cacheDirPathOf r (opts.headD "") u) = false ∧
        (r.Fetch fs path opts).fs.fileAt (cacheDirPathOf r (opts.headD "") u) = false) ∧
    (∀ rm fs2, r.removeAll fs' (cacheDirPathOf r (opts.headD "") u) = (some rm, fs2) →
        (r.Fetch fs path opts).ret =
          ("", some (.multi (.strategyFailed e) (.removeFailed rm))) ∧
        (r.Fetch fs path opts).fs = fs2) := by
  rw [fetch_of_miss r fs path opts u hp hlen hf hc]
  have hmiss : ∀ cdp : String, r.Getter fs r.Home (genericGetterSrc u) cdp = (some e, fs') →
      (r.fetchMiss fs path u cdp).removes = [cdp] ∧
      (∀ fs2, r.removeAll fs' cdp = (none, fs2) →
          (r.fetchMiss fs path u cdp).ret = ("", some (.strategyFailed e)) ∧
          (r.fetchMiss fs path u cdp).fs = fs2 ∧
          (r.fetchMiss fs path u cdp).fs.dirAt cdp = false ∧
          (r.fetchMiss fs path u cdp).fs.fileAt cdp = false) ∧
      (∀ rm fs2, r.removeAll fs' cdp = (some rm, fs2) →
          (r.fetchMiss fs path u cdp).ret =
            ("", some (.multi (.strategyFailed e) (.removeFailed rm))) ∧
          (r.fetchMiss fs path u cdp).fs = fs2) := by
    intro cdp hg
    unfold Remote.fetchMiss
    simp only [hd1, hd2, hg, Bool.false_eq_true, if_false]
    unfold Remote.fetchMissGenericFail
    refine ⟨?_, ?_, ?_⟩
    · cases hr : r.removeAll fs' cdp with
      | mk o fs2 => cases o <;> rfl
    · intro fs2 hr
      rw [hr]
      exact ⟨rfl, rfl, (hrm fs' cdp fs2 hr).1, (hrm fs' cdp fs2 hr).2⟩
    · intro rm fs2 hr
      rw [hr]
      exact ⟨rfl, rfl⟩
  exact hmiss (cacheDirPathOf r (opts.headD "") u) hget

theorem c6_witness :
    (Parse c6ref = .ok c6src ∧
      emptyFS.fileAt (cacheDirPathOf rGenFail "" c6src) = false ∧
      cacheHit emptyFS c6src (cacheDirPathOf rGenFail "" c6src) = false ∧
      rGenFail.Getter emptyFS "/h" (genericGetterSrc c6src)
          (cacheDirPathOf rGenFail "" c6src) = (some "get: boom", emptyFS)) ∧
    ((rGenFail.Fetch emptyFS c6ref []).removes = ["/h/https_example_com_org"] ∧
      (rGenFail.Fetch emptyFS c6ref []).ret = ("", some (.strategyFailed "get: boom")) ∧
      (rGenFail.Fetch emptyFS c6ref []).fs.dirAt "/h/https_example_com_org" = false) := by
  have h := c6_generic_failure_cleanup rGenFail emptyFS c6ref [] c6src "get: boom" emptyFS
    (by rfl) (by decide) okRemoveAll_post (by rfl) (by rfl) (by rfl) (by rfl) (by rfl)
  have h2 := h.2.1 (okRemoveAll emptyFS (cacheDirPathOf rGenFail "" c6src)).2 (by rfl)
  exact ⟨⟨by rfl, by rfl, by rfl, by rfl⟩, h.1, h2.1, h2.2.2.1⟩

/-- A successful `fetchMiss` made exactly one strategy call, returned
the joined cache-file path, and (by the strategies' contract of
materializing the destination directory) left a directory and no plain
file at the cache path. -/
theorem fetchMiss_ok (r : Remote) (fs : FS) (path : String) (u : Source) (cdp : String)
    (hG : ∀ fs1 wd src dst res, r.Getter fs1 wd src dst = (none, res) →
        res.dirAt dst = true ∧ res.fileAt dst = false)
    (hS : ∀ fs1 wd src dst res, r.S3Getter fs1 wd src dst = (none, res) →
        res.dirAt dst = true ∧ res.fileAt dst = false)
    (hH : ∀ fs1 wd src dst res, r.HttpGetter fs1 wd src dst = (none, res) →
        res.dirAt dst = true ∧ res.fileAt dst = false)
    (hok : (r.fetchMiss fs path u cdp).ret.2 = none) :
    (r.fetchMiss fs path u cdp).ret.1 = filepathJoin2 cdp u.File ∧
    (r.fetchMiss fs path u cdp).calls.length = 1 ∧
    (r.fetchMiss fs path u cdp).fs.dirAt cdp = true ∧
    (r.fetchMiss fs path u cdp).fs.fileAt cdp = false := by
  unfold Remote.fetchMiss at hok ⊢
  by_cases h1 : (u.Getter == "normal" && u.Scheme == "s3") = true
  · rw [if_pos h1] at hok ⊢
    cases hres : r.S3Getter fs r.Home path cdp with
    | mk o res =>
      rw [hres] at hok
      cases o with
      | some e => exact Option.noConfusion hok
      | none => exact ⟨rfl, rfl, (hS fs r.Home path cdp res hres).1,
          (hS fs r.Home path cdp res hres).2⟩
  · rw [if_neg h1] at hok ⊢
    by_cases h2 : (u.Getter == "normal" && (u.Scheme == "https" || u.Scheme == "http")) = true
    · rw [if_pos h2] at hok ⊢
      cases hres : r.HttpGetter fs r.Home path cdp with
      | mk o res =>
        rw [hres] at hok
        cases o with
        | some e => exact Option.noConfusion hok
        | none => exact ⟨rfl, rfl, (hH fs r.Home path cdp res hres).1,
            (hH fs r.Home path cdp res hres).2⟩
    · rw [if_neg h2] at hok ⊢
      cases hres : r.Getter fs r.Home (genericGetterSrc u) cdp with
      | mk o res =>
        rw [hres] at hok
        cases o with
        | some e =>
          have hok2 : (r.fetchMissGenericFail u cdp e res).ret.2 = none := hok
          unfold Remote.fetchMissGenericFail at hok2
          cases hrm : r.removeAll res cdp with
          | mk o2 res2 =>
            rw [hrm] at hok2
            cases o2 <;> exact Option.noConfusion hok2
        | none => exact ⟨rfl, rfl, (hG fs r.Home (genericGetterSrc u) cdp res hres).1,
            (hG fs r.Home (genericGetterSrc u) cdp res hres).2⟩

/-- Round trip at the `fetchSource` level: after a successful call, a
second call with the same arguments on the resulting filesystem is a
cache hit — it succeeds with the same path, makes no strategy call and
leaves the state unchanged; the first call made at most one call, and
exactly one if it was not itself a cache hit. -/
theorem fetchSource_roundtrip (r : Remote) (fs : FS) (path : String) (u : Source) (cbd : String)
    (hG : ∀ fs1 wd src dst res, r.Getter fs1 wd src dst = (none, res) →
        res.dirAt dst = true ∧ res.fileAt dst = false)
    (hS : ∀ fs1 wd src dst res, r.S3Getter fs1 wd src dst = (none, res) →
        res.dirAt dst = true ∧ res.fileAt dst = false)
    (hH : ∀ fs1 wd src dst res, r.HttpGetter fs1 wd src dst = (none, res) →
        res.dirAt dst = true ∧ res.fileAt dst = false)
    (hok : (r.fetchSource fs path u cbd).ret.2 = none) :
    r.fetchSource (r.fetchSource fs path u cbd).fs path u cbd =
      { ret := (filepathJoin2 (cacheDirPathOf r cbd u) u.File, none),
        fs := (r.fetchSource fs path u cbd).fs, calls := [], removes := [] } ∧
    (r.fetchSource fs path u cbd).ret.1 =
      filepathJoin2 (cacheDirPathOf r cbd u) u.File ∧
    (r.fetchSource fs path u cbd).calls.length ≤ 1 ∧
    (cacheHit fs u (cacheDirPathOf r cbd u) = false →
      (r.fetchSource fs path u cbd).calls.length = 1) := by
  by_cases hf : fs.fileAt (cacheDirPathOf r cbd u) = true
  · rw [fetchSource_conflict r fs path u cbd hf] at hok
    exact absurd hok (by simp)
  · replace hf : fs.fileAt (cacheDirPathOf r cbd u) = false := by
      cases h : fs.fileAt (cacheDirPathOf r cbd u)
      · rfl
      · exact absurd h hf
    by_cases hc : cacheHit fs u (cacheDirPathOf r cbd u) = true
    · rw [fetchSource_of_hit r fs path u cbd hf hc]
      rw [fetchSource_of_hit r fs path u cbd hf hc]
      exact ⟨rfl, rfl, by simp, fun hm => absurd hc (by simp [hm])⟩
    · replace hc : cacheHit fs u (cacheDirPathOf r cbd u) = false := by
        cases h : cacheHit fs u (cacheDirPathOf r cbd u)
        · rfl
        · exact absurd h hc
      rw [fetchSource_of_miss r fs path u cbd hf hc] at hok ⊢
      obtain ⟨hret, hlen, hdir, hfile⟩ :=
        fetchMiss_ok r fs path u (cacheDirPathOf r cbd u) hG hS hH hok
      have hc2 : cacheHit (r.fetchMiss fs path u (cacheDirPathOf r cbd u)).fs u
          (cacheDirPathOf r cbd u) = true := by
        unfold cacheHit
        rw [hdir]
        simp
      rw [fetchSource_of_hit r (r.fetchMiss fs path u (cacheDirPathOf r cbd u)).fs path u cbd
        hfile hc2]
      exact ⟨rfl, hret, by rw [hlen], fun _ => hlen⟩

/-- C1 (amended): if `Fetch` succeeds, a second `Fetch` with the same
reference and override on the resulting state also succeeds, returns
the same local path, invokes no retrieval strategy and leaves the
state unchanged; across the two calls at most one strategy `Get`
happens — exactly one when the first call was a cache miss (a first
call that already hits a pre-populated cache makes zero). -/
theorem c1_amended_roundtrip (r : Remote) (fs : FS) (path : String) (opts : List String)
    (hG : ∀ fs1 wd src dst res, r.Getter fs1 wd src dst = (none, res) →
        res.dirAt dst = true ∧ res.fileAt dst = false)
    (hS : ∀ fs1 wd src dst res, r.S3Getter fs1 wd src dst = (none, res) →
        res.dirAt dst = true ∧ res.fileAt dst = false)
    (hH : ∀ fs1 wd src dst res, r.HttpGetter fs1 wd src dst = (none, res) →
        res.dirAt dst = true ∧ res.fileAt dst = false)
    (hok : (r.Fetch fs path opts).ret.2 = none) :
    (r.Fetch (r.Fetch fs path opts).fs path opts).ret.2 = none ∧
    (r.Fetch (r.Fetch fs path opts).fs path opts).ret.1 = (r.Fetch fs path opts).ret.1 ∧
    (r.Fetch (r.Fetch fs path opts).fs path opts).calls = [] ∧
    (r.Fetch (r.Fetch fs path opts).fs path opts).fs = (r.Fetch fs path opts).fs ∧
    (r.Fetch fs path opts).calls.length ≤ 1 ∧
    (∀ u, Parse path = .ok u →
      cacheHit fs u (cacheDirPathOf r (opts.headD "") u) = false →
      (r.Fetch fs path opts).calls.length = 1) := by
  cases hp : Parse path with
  | error e =>
    have hbad : (r.Fetch fs path opts).ret.2 = some e := by
      unfold Remote.Fetch
      rw [hp]
    rw [hbad] at hok
    exact Option.noConfusion hok
  | ok u =>
    have main : ∀ (opts2 : List String) (cbd : String),
        (r.Fetch fs path opts2).ret.2 = none →
        r.Fetch fs path opts2 = r.fetchSource fs path u cbd →
        r.Fetch (r.fetchSource fs path u cbd).fs path opts2 =
          r.fetchSource (r.fetchSource fs path u cbd).fs path u cbd →
        (r.Fetch (r.Fetch fs path opts2).fs path opts2).ret.2 = none ∧
        (r.Fetch (r.Fetch fs path opts2).fs path opts2).ret.1 =
          (r.Fetch fs path opts2).ret.1 ∧
        (r.Fetch (r.Fetch fs path opts2).fs path opts2).calls = [] ∧
        (r.Fetch (r.Fetch fs path opts2).fs path opts2).fs = (r.Fetch fs path opts2).fs ∧
        (r.Fetch fs path opts2).calls.length ≤ 1 ∧
        (∀ u', (Except.ok u : Except Err Source) = .ok u' →
          cacheHit fs u' (cacheDirPathOf r cbd u') = false →
          (r.Fetch fs path opts2).calls.length = 1) := by
      intro opts2 cbd hok2 heq1 heq2
      rw [heq1] at hok2
      obtain ⟨hA, hB, hC, hD⟩ := fetchSource_roundtrip r fs path u cbd hG hS hH hok2
      rw [heq1, heq2, hA]
      refine ⟨rfl, hB.symm, rfl, rfl, hC, ?_⟩
      intro u' hu' hm
      have huu : u = u' := Except.ok.inj hu'
      subst huu
      exact hD hm
    cases opts with
    | nil =>
      exact main [] "" hok (fetch_eq_fetchSource r fs path [] u hp (Nat.zero_le 1))
        (fetch_eq_fetchSource r (r.fetchSource fs path u "").fs path [] u hp (Nat.zero_le 1))
    | cons a t =>
      cases t with
      | nil =>
        exact main [a] a hok (fetch_eq_fetchSource r fs path [a] u hp (Nat.le_refl 1))
          (fetch_eq_fetchSource r (r.fetchSource fs path u a).fs path [a] u hp (Nat.le_refl 1))
      | cons b t2 =>
        have hbad : (r.Fetch fs path (a :: b :: t2)).ret.2 =
            some (.cacheDirOptBug (a :: b :: t2).length) := by
          unfold Remote.Fetch
          rw [hp]
        rw [hbad] at hok
        exact Option.noConfusion hok

/-- C1's "exactly one retrieval-strategy Get across the two calls"
fails when the cache is already populated before the first call: both
calls succeed with the same path and zero strategy calls happen. -/
theorem c1_counterexample :
    (rOK.Fetch c1fs c6ref []).ret.2 = none ∧
    (rOK.Fetch (rOK.Fetch c1fs c6ref []).fs c6ref []).ret.2 = none ∧
    (rOK.Fetch (rOK.Fetch c1fs c6ref []).fs c6ref []).ret.1 =
      (rOK.Fetch c1fs c6ref []).ret.1 ∧
    (rOK.Fetch c1fs c6ref []).calls.length +
      (rOK.Fetch (rOK.Fetch c1fs c6ref []).fs c6ref []).calls.length = 0 ∧
    ¬((rOK.Fetch c1fs c6ref []).calls.length +
        (rOK.Fetch (rOK.Fetch c1fs c6ref []).fs c6ref []).calls.length = 1) := by
  exact ⟨by rfl, by rfl, by rfl, by rfl, by decide⟩

theorem c1_amended_witness :
    ((rOK.Fetch emptyFS c6ref []).ret.2 = none ∧
      Parse c6ref = .ok c6src ∧
      cacheHit emptyFS c6src (cacheDirPathOf rOK "" c6src) = false) ∧
    ((rOK.Fetch (rOK.Fetch emptyFS c6ref []).fs c6ref []).ret.2 = none ∧
      (rOK.Fetch (rOK.Fetch emptyFS c6ref []).fs c6ref []).calls = [] ∧
      (rOK.Fetch (rOK.Fetch emptyFS c6ref []).fs c6ref []).ret.1 =
        (rOK.Fetch emptyFS c6ref []).ret.1 ∧
      (rOK.Fetch emptyFS c6ref []).calls.length = 1) := by
  have h := c1_amended_roundtrip rOK emptyFS c6ref [] okGet_post okGet_post okGet_post (by rfl)
  exact ⟨⟨by rfl, by rfl, by rfl⟩,
    h.1, h.2.2.1, h.2.1, h.2.2.2.2.2 c6src (by rfl) (by rfl)⟩

/-! ## Lemmas for the secret-redaction property (C2) -/

theorem string_data_append (a b : String) : (a ++ b).data = a.data ++ b.data := rfl

theorem contains_eq_false_of_forall_ne (x : Char) (l : List Char)
    (h : ∀ c ∈ l, c ≠ x) : l.contains x = false := by
  cases hc : l.contains x
  · rfl
  · exact absurd rfl (h x (List.elem_iff.mp hc))

theorem splitOnChar_ne_nil (sep : Char) (l : List Char) : splitOnChar sep l ≠ [] := by
  induction l with
  | nil => simp [splitOnChar]
  | cons c cs ih =>
    unfold splitOnChar
    by_cases h : c = sep
    · simp [h]
    · rw [if_neg h]
      cases hs : splitOnChar sep cs <;> simp

theorem splitOnChar_cons_sep (sep : Char) (cs : List Char) :
    splitOnChar sep (sep :: cs) = [] :: splitOnChar sep cs := by
  conv_lhs => unfold splitOnChar
  rw [if_pos rfl]

theorem splitOnChar_cons_ne (sep c : Char) (cs : List Char) (h : c ≠ sep) :
    splitOnChar sep (c :: cs) =
      match splitOnChar sep cs with
      | [] => [[c]]
      | p :: ps => (c :: p) :: ps := by
  conv_lhs => unfold splitOnChar
  rw [if_neg h]

/-- `strings.Split` at an explicit separator occurrence: the pieces
before and the pieces after, with no merging across the separator. -/
theorem splitOnChar_sep_append (sep : Char) (xs ys : List Char) :
    splitOnChar sep (xs ++ sep :: ys) = splitOnChar sep xs ++ splitOnChar sep ys := by
  induction xs with
  | nil =>
    rw [List.nil_append, splitOnChar_cons_sep]
    rfl
  | cons c cs ih =>
    by_cases h : c = sep
    · subst h
      rw [List.cons_append, splitOnChar_cons_sep, splitOnChar_cons_sep, ih, List.cons_append]
    · rw [List.cons_append, splitOnChar_cons_ne sep c _ h, splitOnChar_cons_ne sep c cs h, ih]
      cases hcs : splitOnChar sep cs with
      | nil => exact absurd hcs (splitOnChar_ne_nil sep cs)
      | cons p ps => simp

/-- A separator-free list is a single piece. -/
theorem splitOnChar_no_sep (sep : Char) (l : List Char) (h : ∀ c ∈ l, c ≠ sep) :
    splitOnChar sep l = [l] := by
  induction l with
  | nil => rfl
  | cons c cs ih =>
    rw [splitOnChar_cons_ne sep c cs (h c (by simp)),
      ih (fun x hx => h x (by simp [hx]))]


theorem contains_append (x : Char) (a b : List Char) :
    (a ++ b).contains x = (a.contains x || b.contains x) := by
  induction a with
  | nil => simp
  | cons c cs ih =>
    simp only [List.cons_append, List.contains_cons, ih, Bool.or_assoc]

theorem valuesHas_append_cons (k : String) (vs : List String) (b : Values) :
    ∀ a : Values, valuesHas (a ++ (k, vs) :: b) k = true := by
  intro a
  induction a with
  | nil => simp [valuesHas]
  | cons p as ih =>
    cases p with
    | mk k' vs' =>
      show (k' == k || valuesHas (as ++ (k, vs) :: b) k) = true
      rw [ih]
      simp

theorem valuesSet_append_cons (k w : String) (vs1 vs2 : List String) (b : Values) :
    ∀ a : Values, (∀ p ∈ a, p.1 ≠ k) →
      valuesSet (a ++ (k, vs1) :: b) k w = valuesSet (a ++ (k, vs2) :: b) k w := by
  intro a
  induction a with
  | nil =>
    intro _
    show valuesSet ((k, vs1) :: b) k w = valuesSet ((k, vs2) :: b) k w
    unfold valuesSet
    rw [if_pos rfl, if_pos rfl]
  | cons p as ih =>
    intro ha
    cases p with
    | mk k' vs' =>
      have hk' : k' ≠ k := ha (k', vs') (by simp)
      show valuesSet ((k', vs') :: (as ++ (k, vs1) :: b)) k w =
        valuesSet ((k', vs') :: (as ++ (k, vs2) :: b)) k w
      unfold valuesSet
      rw [if_neg hk', if_neg hk', ih (fun p hp => ha p (by simp [hp]))]

theorem valuesAdd_append_cons (k k' v' : String) (vs1 vs2 : List String) (b : Values) :
    ∀ a : Values, (∀ p ∈ a, p.1 ≠ k) →
      ∃ (a2 : Values) (vs1' vs2' : List String) (b2 : Values),
        (∀ p ∈ a2, p.1 ≠ k) ∧
        valuesAdd (a ++ (k, vs1) :: b) k' v' = a2 ++ (k, vs1') :: b2 ∧
        valuesAdd (a ++ (k, vs2) :: b) k' v' = a2 ++ (k, vs2') :: b2 := by
  intro a
  induction a with
  | nil =>
    intro _
    by_cases hkk : k = k'
    · refine ⟨[], vs1 ++ [v'], vs2 ++ [v'], b, by simp, ?_, ?_⟩ <;>
        · show valuesAdd ((k, _) :: b) k' v' = _
          unfold valuesAdd
          rw [if_pos hkk]
          simp
    · refine ⟨[], vs1, vs2, valuesAdd b k' v', by simp, ?_, ?_⟩ <;>
        · show valuesAdd ((k, _) :: b) k' v' = _
          conv_lhs => unfold valuesAdd
          rw [if_neg hkk]
          simp
  | cons p as ih =>
    intro ha
    cases p with
    | mk k0 vs0 =>
      have hk0 : k0 ≠ k := ha (k0, vs0) (by simp)
      by_cases h0 : k0 = k'
      · refine ⟨(k0, vs0 ++ [v']) :: as, vs1, vs2, b, ?_, ?_, ?_⟩
        · intro p hp
          rcases List.mem_cons.mp hp with hp | hp
          · rw [hp]
            exact hk0
          · exact ha p (by simp [hp])
        · show valuesAdd ((k0, vs0) :: (as ++ (k, vs1) :: b)) k' v' = _
          unfold valuesAdd
          rw [if_pos h0]
          simp
        · show valuesAdd ((k0, vs0) :: (as ++ (k, vs2) :: b)) k' v' = _
          unfold valuesAdd
          rw [if_pos h0]
          simp
      · obtain ⟨a2, vs1', vs2', b2, hcond, e1, e2⟩ := ih (fun p hp => ha p (by simp [hp]))
        refine ⟨(k0, vs0) :: a2, vs1', vs2', b2, ?_, ?_, ?_⟩
        · intro p hp
          rcases List.mem_cons.mp hp with hp | hp
          · rw [hp]
            exact hk0
          · exact hcond p hp
        · show valuesAdd ((k0, vs0) :: (as ++ (k, vs1) :: b)) k' v' = _
          unfold valuesAdd
          rw [if_neg h0, e1]
          simp
        · show valuesAdd ((k0, vs0) :: (as ++ (k, vs2) :: b)) k' v' = _
          unfold valuesAdd
          rw [if_neg h0, e2]
          simp

theorem valuesAdd_exceptAt (k k' v' : String) {m1 m2 : Values}
    (h : ValuesExceptAt k m1 m2) :
    ValuesExceptAt k (valuesAdd m1 k' v') (valuesAdd m2 k' v') := by
  obtain ⟨a, vs1, vs2, b, ha, e1, e2⟩ := h
  subst e1
  subst e2
  obtain ⟨a2, vs1', vs2', b2, hcond, f1, f2⟩ := valuesAdd_append_cons k k' v' vs1 vs2 b a ha
  exact ⟨a2, vs1', vs2', b2, hcond, f1, f2⟩

/-- Adding the same key with two different values to one and the same
map produces maps equal except at that key. -/
theorem valuesAdd_same_exceptAt (k w1 w2 : String) :
    ∀ m0 : Values, ValuesExceptAt k (valuesAdd m0 k w1) (valuesAdd m0 k w2) := by
  intro m0
  induction m0 with
  | nil => exact ⟨[], [w1], [w2], [], by simp, rfl, rfl⟩
  | cons p rest ih =>
    cases p with
    | mk k0 vs0 =>
      by_cases h0 : k0 = k
      · subst h0
        refine ⟨[], vs0 ++ [w1], vs0 ++ [w2], rest, by simp, ?_, ?_⟩ <;>
          · show valuesAdd ((k0, vs0) :: rest) k0 _ = _
            conv_lhs => unfold valuesAdd
            rw [if_pos rfl]
            rfl
      · obtain ⟨a, vs1, vs2, b, hcond, e1, e2⟩ := ih
        refine ⟨(k0, vs0) :: a, vs1, vs2, b, ?_, ?_, ?_⟩
        · intro p hp
          rcases List.mem_cons.mp hp with hp | hp
          · rw [hp]
            exact h0
          · exact hcond p hp
        · show valuesAdd ((k0, vs0) :: rest) k w1 = _
          conv_lhs => unfold valuesAdd
          rw [if_neg h0, e1]
          rfl
        · show valuesAdd ((k0, vs0) :: rest) k w2 = _
          conv_lhs => unfold valuesAdd
          rw [if_neg h0, e2]
          rfl

theorem parsePiece_exceptAt (k : String) (p : List Char) {m1 m2 : Values}
    (h : ValuesExceptAt k m1 m2) :
    ValuesExceptAt k (parsePiece m1 p) (parsePiece m2 p) := by
  unfold parsePiece
  by_cases h1 : p.contains ';' = true
  · rw [if_pos h1, if_pos h1]
    exact h
  · rw [if_neg h1, if_neg h1]
    by_cases h2 : p = []
    · rw [if_pos h2, if_pos h2]
      exact h
    · rw [if_neg h2, if_neg h2]
      unfold parsePieceKV
      cases queryUnescapeL (cutChar '=' p).1 with
      | none => exact h
      | some kk =>
        cases queryUnescapeL (cutChar '=' p).2.1 with
        | none => exact h
        | some vv => exact valuesAdd_exceptAt k (String.mk kk) (String.mk vv) h

theorem foldl_parsePiece_exceptAt (k : String) (ps : List (List Char)) :
    ∀ {m1 m2 : Values}, ValuesExceptAt k m1 m2 →
      ValuesExceptAt k (ps.foldl parsePiece m1) (ps.foldl parsePiece m2) := by
  induction ps with
  | nil => intro m1 m2 h; exact h
  | cons p ps ih =>
    intro m1 m2 h
    exact ih (parsePiece_exceptAt k p h)

theorem redact_eq_of_exceptAt {m1 m2 : Values} (h : ValuesExceptAt "sshkey" m1 m2) :
    redact m1 = redact m2 := by
  obtain ⟨a, vs1, vs2, b, ha, e1, e2⟩ := h
  subst e1
  subst e2
  unfold redact
  rw [valuesHas_append_cons "sshkey" vs1 b a, valuesHas_append_cons "sshkey" vs2 b a]
  simp only [if_true]
  exact valuesSet_append_cons "sshkey" "redacted" vs1 vs2 b a ha

/-- Parsing-then-redacting a query whose `sshkey` parameter carries
value `v` gives the same map for any two values, wherever the
parameter stands in the query (`pre`/`post` are the surrounding bytes,
at parameter boundaries).  The only values excluded are those the code
itself treats specially: a value with `&` would not be a single
parameter's value at all, and a value with `;` or an invalid
percent-escape makes `ParseQuery` drop the pair (so the reference has
no `sshkey` parameter and the redaction never fires). -/
theorem redact_parseQuery_sshkey (pre v1 v2 post : String)
    (hpre : pre = "" ∨ ∃ pre0 : String, pre = pre0 ++ "&")
    (hpost : post = "" ∨ ∃ post0 : String, post = "&" ++ post0)
    (ha1 : ∀ c ∈ v1.data, c ≠ '&') (ha2 : ∀ c ∈ v2.data, c ≠ '&')
    (hsc1 : ∀ c ∈ v1.data, c ≠ ';') (hsc2 : ∀ c ∈ v2.data, c ≠ ';')
    (hu1 : queryUnescapeL v1.data ≠ none) (hu2 : queryUnescapeL v2.data ≠ none) :
    redact (parseQueryGo (pre ++ "sshkey=" ++ v1 ++ post)) =
      redact (parseQueryGo (pre ++ "sshkey=" ++ v2 ++ post)) := by
  obtain ⟨w1, hw1⟩ : ∃ w, queryUnescapeL v1.data = some w := by
    cases hq : queryUnescapeL v1.data
    · exact absurd hq hu1
    · exact ⟨_, rfl⟩
  obtain ⟨w2, hw2⟩ : ∃ w, queryUnescapeL v2.data = some w := by
    cases hq : queryUnescapeL v2.data
    · exact absurd hq hu2
    · exact ⟨_, rfl⟩
  have hpp : ∀ (v : String) (w : List Char) (m0 : Values), (∀ c ∈ v.data, c ≠ ';') →
      queryUnescapeL v.data = some w →
      parsePiece m0 ("sshkey=".data ++ v.data) = valuesAdd m0 "sshkey" (String.mk w) := by
    intro v w m0 hsemi hw
    unfold parsePiece
    have hc : (("sshkey=".data ++ v.data).contains ';') = false := by
      rw [contains_append, show ("sshkey=".data).contains ';' = false from by decide,
        contains_eq_false_of_forall_ne ';' v.data hsemi]
      rfl
    rw [if_neg (by rw [hc]; simp)]
    have hne : ("sshkey=".data ++ v.data) ≠ [] := by
      show ('s' :: ("shkey=".data ++ v.data)) ≠ []
      exact List.cons_ne_nil _ _
    rw [if_neg hne]
    have hcut : cutChar '=' ("sshkey=".data ++ v.data) = ("sshkey".data, v.data, true) := by
      show cutChar '=' ('s' :: 's' :: 'h' :: 'k' :: 'e' :: 'y' :: '=' :: v.data) = _
      simp [cutChar]
    rw [hcut]
    rw [show queryUnescapeL (("sshkey".data, v.data, true).2.1) = some w from hw]
    rfl
  have key : ∀ (Ppre Ppost : List (List Char)),
      (∀ v : String, (∀ c ∈ v.data, c ≠ '&') →
        splitOnChar '&' (pre ++ "sshkey=" ++ v ++ post).data =
          Ppre ++ (("sshkey=".data ++ v.data) :: Ppost)) →
      redact (parseQueryGo (pre ++ "sshkey=" ++ v1 ++ post)) =
        redact (parseQueryGo (pre ++ "sshkey=" ++ v2 ++ post)) := by
    intro Ppre Ppost hsp
    unfold parseQueryGo
    rw [hsp v1 ha1, hsp v2 ha2, List.foldl_append, List.foldl_append]
    simp only [List.foldl_cons]
    rw [hpp v1 w1 _ hsc1 hw1, hpp v2 w2 _ hsc2 hw2]
    exact redact_eq_of_exceptAt (foldl_parsePiece_exceptAt "sshkey" Ppost
      (valuesAdd_same_exceptAt "sshkey" (String.mk w1) (String.mk w2) _))
  have hto : ∀ v : String, (pre ++ "sshkey=" ++ v ++ post).data =
      pre.data ++ (("sshkey=".data ++ v.data) ++ post.data) := by
    intro v
    rw [string_data_append, string_data_append, string_data_append]
    simp [List.append_assoc]
  have hss : ∀ c ∈ "sshkey=".data, c ≠ '&' := by decide
  have hkv : ∀ (v : String), (∀ c ∈ v.data, c ≠ '&') →
      ∀ c ∈ "sshkey=".data ++ v.data, c ≠ '&' := by
    intro v hv c hc
    rcases List.mem_append.mp hc with hc | hc
    · exact hss c hc
    · exact hv c hc
  rcases hpre with hpre | ⟨pre0, hpre⟩ <;> rcases hpost with hpost | ⟨post0, hpost⟩
  · apply key [] []
    intro v hv
    rw [hto v, hpre, hpost]
    rw [show ("" : String).data = [] from rfl, List.nil_append, List.append_nil,
      List.nil_append]
    exact splitOnChar_no_sep '&' _ (hkv v hv)
  · apply key [] (splitOnChar '&' post0.data)
    intro v hv
    rw [hto v, hpre, hpost]
    rw [show ("" : String).data = [] from rfl, List.nil_append, string_data_append,
      show ("&" : String).data = ['&'] from rfl, List.nil_append]
    rw [show ("sshkey=".data ++ v.data) ++ (['&'] ++ post0.data) =
      ("sshkey=".data ++ v.data) ++ '&' :: post0.data from rfl]
    rw [splitOnChar_sep_append '&' _ post0.data,
      splitOnChar_no_sep '&' _ (hkv v hv)]
    rfl
  · apply key (splitOnChar '&' pre0.data) []
    intro v hv
    rw [hto v, hpre, hpost]
    rw [string_data_append, show ("&" : String).data = ['&'] from rfl,
      show ("" : String).data = [] from rfl, List.append_nil, List.append_assoc]
    rw [show ['&'] ++ ("sshkey=".data ++ v.data) =
      '&' :: ("sshkey=".data ++ v.data) from rfl]
    rw [splitOnChar_sep_append '&' pre0.data _,
      splitOnChar_no_sep '&' _ (hkv v hv)]
  · apply key (splitOnChar '&' pre0.data) (splitOnChar '&' post0.data)
    intro v hv
    rw [hto v, hpre, hpost]
    rw [string_data_append, show ("&" : String).data = ['&'] from rfl,
      string_data_append, List.append_assoc]
    rw [show ['&'] ++ (("sshkey=".data ++ v.data) ++ (['&'] ++ post0.data)) =
      '&' :: (("sshkey=".data ++ v.data) ++ '&' :: post0.data) from rfl]
    rw [splitOnChar_sep_append '&' pre0.data _,
      splitOnChar_sep_append '&' _ post0.data,
      splitOnChar_no_sep '&' _ (hkv v hv)]
    rfl

/-- C2: two parseable references whose descriptors agree on scheme,
host and directory and whose raw queries are byte-identical except for
the value of the `sshkey` parameter derive equal cache keys inside
`Fetch`, and hence resolve to the same cache path for any `Home` and
override.  The parameter may stand anywhere in the query (`pre` and
`post` are the identical surrounding bytes, at parameter boundaries);
the value is arbitrary except for what `ParseQuery` itself forces: no
`&` (a value containing `&` is not a single parameter's value), no `;`
and no invalid percent-escape (either makes `ParseQuery` drop the
pair, leaving the reference without an `sshkey` parameter). -/
theorem c2_sshkey_redaction_cache_key (r1 r2 : String) (u1 u2 : Source)
    (pre v1 v2 post : String)
    (_hp1 : Parse r1 = .ok u1) (_hp2 : Parse r2 = .ok u2)
    (hs : u1.Scheme = u2.Scheme) (hh : u1.Host = u2.Host) (hd : u1.Dir = u2.Dir)
    (hq1 : u1.RawQuery = pre ++ "sshkey=" ++ v1 ++ post)
    (hq2 : u2.RawQuery = pre ++ "sshkey=" ++ v2 ++ post)
    (hpre : pre = "" ∨ ∃ pre0 : String, pre = pre0 ++ "&")
    (hpost : post = "" ∨ ∃ post0 : String, post = "&" ++ post0)
    (ha1 : ∀ c ∈ v1.data, c ≠ '&') (ha2 : ∀ c ∈ v2.data, c ≠ '&')
    (hsc1 : ∀ c ∈ v1.data, c ≠ ';') (hsc2 : ∀ c ∈ v2.data, c ≠ ';')
    (hu1 : queryUnescapeL v1.data ≠ none) (hu2 : queryUnescapeL v2.data ≠ none) :
    deriveCacheKey u1 = deriveCacheKey u2 ∧
    ∀ (r : Remote) (cbd : String), cacheDirPathOf r cbd u1 = cacheDirPathOf r cbd u2 := by
  have hto : ∀ v : String, (pre ++ "sshkey=" ++ v ++ post).data =
      pre.data ++ (("sshkey=".data ++ v.data) ++ post.data) := by
    intro v
    rw [string_data_append, string_data_append, string_data_append]
    simp [List.append_assoc]
  have hlen : ∀ v : String, (pre ++ "sshkey=" ++ v ++ post).data.length > 0 := by
    intro v
    rw [hto v]
    have h7 : ("sshkey=".data).length = 7 := rfl
    simp [List.length_append, h7]
  have hk : deriveCacheKey u1 = deriveCacheKey u2 := by
    unfold deriveCacheKey
    have hsd : srcDirOf u1 = srcDirOf u2 := by
      unfold srcDirOf
      rw [hs, hh, hd]
    rw [hsd, hq1, hq2]
    rw [if_pos (hlen v1), if_pos (hlen v2)]
    rw [redact_parseQuery_sshkey pre v1 v2 post hpre hpost ha1 ha2 hsc1 hsc2 hu1 hu2]
  refine ⟨hk, fun r cbd => ?_⟩
  unfold cacheDirPathOf getterDstOf
  rw [hk]

theorem c2_witness :
    (Parse c2refA = .ok c2srcA ∧ Parse c2refB = .ok c2srcB ∧
      c2srcA.RawQuery = "ref=v1.0&" ++ "sshkey=" ++ "QUJ+RE/VG==" ++ "" ∧
      c2srcB.RawQuery = "ref=v1.0&" ++ "sshkey=" ++ "WFla/Vz+X=" ++ "") ∧
    (deriveCacheKey c2srcA = deriveCacheKey c2srcB ∧
      deriveCacheKey c2srcA = "ssh_example_com_org.ref=v1.0_sshkey=redacted" ∧
      cacheDirPathOf rOK "" c2srcA = cacheDirPathOf rOK "" c2srcB) := by
  have h := c2_sshkey_redaction_cache_key c2refA c2refB c2srcA c2srcB
    "ref=v1.0&" "QUJ+RE/VG==" "WFla/Vz+X=" ""
    (by rfl) (by rfl) (by rfl) (by rfl) (by rfl) (by rfl) (by rfl)
    (Or.inr ⟨"ref=v1.0", rfl⟩) (Or.inl rfl)
    (by decide) (by decide) (by decide) (by decide) (by decide) (by decide)
  exact ⟨⟨by rfl, by rfl, by rfl, by rfl⟩, h.1, by rfl, h.2 rOK ""⟩

end HelmfileRemote
